import Mathlib

/-!
Verification of the bycycle repository: shallow embedding of the object
wrapper layer (src/bycycle/objs/fit.py) together with spec-modelled
definitions of the algorithmic core (single-signal pipeline, burst
detector and batch dispatcher), which is exercised by the repository's
tests but whose implementation is external to the provided sources.
Signals are sequences of rationals; machine floats of the original code
are modelled as exact rationals, which is faithful for the structural
and ordering properties verified here.
-/

/-- A 1-dimensional signal: an ordered sequence of voltage samples. -/
abbrev Sig := List ℚ

/-- A numpy array of 1, 2 or 3 dimensions, as passed to the fit methods. -/
inductive NDSig where
  | d1 (sig : Sig)
  | d2 (sigs : List Sig)
  | d3 (sigs : List (List Sig))
deriving DecidableEq

/-- Number of dimensions of an array (numpy ndim). -/
def NDSig.ndim : NDSig → ℕ
  | .d1 _ => 1
  | .d2 _ => 2
  | .d3 _ => 3

/-- A dynamically typed Python value, as needed to model arguments that may
receive either a string or a boolean at a call site. -/
inductive PyVal where
  | str (s : String)
  | bool (b : Bool)
deriving DecidableEq

/-- A Python dict with string keys and numeric values, modelled as an
ordered association list. -/
abbrev PyDict := List (String × ℚ)

/-- The default thresholds dict built by Bycycle.__init__ and
BycycleGroup.__init__ when thresholds is None (fit.py lines 71-78 and
233-240). -/
def default_thresholds : PyDict :=
  [("amp_fraction_threshold", 0),
   ("amp_consistency_threshold", 1/2),
   ("period_consistency_threshold", 1/2),
   ("monotonicity_threshold", 4/5),
   ("min_n_cycles", 3)]

/-- The default find_extrema_kwargs dict (fit.py lines 82-85). -/
def default_find_extrema_kwargs : PyDict := [("n_cycles", 3)]

/-- Per-cycle measures consumed by the consistency burst detector. -/
structure CycleMeasures where
  amp_fraction : ℚ
  amp_consistency : ℚ
  period_consistency : ℚ
  monotonicity : ℚ
deriving DecidableEq

/-- Named numeric criteria of the consistency burst detector. -/
structure BurstThresholds where
  amp_fraction_threshold : ℚ
  amp_consistency_threshold : ℚ
  period_consistency_threshold : ℚ
  monotonicity_threshold : ℚ
  min_n_cycles : ℕ
deriving DecidableEq

/-- Look up a numeric key in a dict with a fallback default. -/
def lookupQ (d : PyDict) (k : String) (dflt : ℚ) : ℚ :=
  (d.lookup k).getD dflt

/-- Convert a thresholds dict to the named criteria record, with the
documented keyword defaults of the detector. -/
def toBurstThresholds (d : PyDict) : BurstThresholds :=
  ⟨lookupQ d "amp_fraction_threshold" 0,
   lookupQ d "amp_consistency_threshold" (1/2),
   lookupQ d "period_consistency_threshold" (1/2),
   lookupQ d "monotonicity_threshold" (4/5),
   (lookupQ d "min_n_cycles" 3).floor.toNat⟩

/-- A cycle passes the per-cycle stage of the consistency detector iff all
four measures meet or exceed their thresholds. -/
def passesCriteria (t : BurstThresholds) (m : CycleMeasures) : Bool :=
  decide (t.amp_fraction_threshold ≤ m.amp_fraction) &&
  decide (t.amp_consistency_threshold ≤ m.amp_consistency) &&
  decide (t.period_consistency_threshold ≤ m.period_consistency) &&
  decide (t.monotonicity_threshold ≤ m.monotonicity)

/-- Number of consecutive true entries of ps ending at index i (inclusive). -/
def backCount (ps : List Bool) : ℕ → ℕ
  | 0 => if ps.getD 0 false then 1 else 0
  | i + 1 => if ps.getD (i + 1) false then backCount ps i + 1 else 0

/-- Number of consecutive true entries at the front of a list. -/
def fwdCount : List Bool → ℕ
  | [] => 0
  | b :: rest => if b then fwdCount rest + 1 else 0

/-- Length of the maximal run of consecutive true entries containing index
i, or 0 when index i itself is false. -/
def runLen (ps : List Bool) (i : ℕ) : ℕ :=
  if ps.getD i false then backCount ps i + fwdCount (ps.drop (i + 1)) else 0

/-- Modelled from the spec: the consistency burst detector
(detect_bursts_cycles), absent from the provided sources.  A cycle is a
burst candidate iff all four measures meet their thresholds; candidate
runs shorter than min_n_cycles are rejected, so a cycle is marked as
burst iff it lies in a run of consecutive passing cycles of length at
least min_n_cycles. -/
def detect_bursts_cycles (t : BurstThresholds) (ms : List CycleMeasures) : List Bool :=
  let ps := ms.map (passesCriteria t)
  (List.range ms.length).map (fun i =>
    ps.getD i false && decide (t.min_n_cycles ≤ runLen ps i))

/-- Indices that are strict local maxima of a signal. -/
def localPeaks (sig : Sig) : List ℕ :=
  (List.range sig.length).filter (fun i =>
    decide (0 < i) && decide (i + 1 < sig.length) &&
    decide (sig.getD (i - 1) 0 < sig.getD i 0) &&
    decide (sig.getD (i + 1) 0 < sig.getD i 0))

/-- Indices that are strict local minima of a signal. -/
def localTroughs (sig : Sig) : List ℕ :=
  (List.range sig.length).filter (fun i =>
    decide (0 < i) && decide (i + 1 < sig.length) &&
    decide (sig.getD i 0 < sig.getD (i - 1) 0) &&
    decide (sig.getD i 0 < sig.getD (i + 1) 0))

/-- Modelled from the spec: the external Extrema Locator capability
(find_extrema), which is consumed but not reimplemented by the core:
given a signal it returns ordered peak and trough sample indices. -/
def find_extrema (sig : Sig) : List ℕ × List ℕ :=
  (localPeaks sig, localTroughs sig)

/-- Index of a maximal sample strictly between lo and hi (defaults to lo
when the open interval is empty). -/
def argmaxIdx (sig : Sig) (lo hi : ℕ) : ℕ :=
  ((List.range sig.length).filter (fun i =>
      decide (lo < i) && decide (i < hi))).foldl
    (fun best i => if sig.getD best 0 < sig.getD i 0 then i else best) lo

/-- Consecutive pairs of a list. -/
def consecPairs : List ℕ → List (ℕ × ℕ)
  | a :: b :: rest => (a, b) :: consecPairs (b :: rest)
  | _ => []

/-- Modelled from the spec: the Cyclepoint Extractor.  For peak-centered
cycles, every pair of consecutive troughs bounds one cycle whose center
peak is the maximal sample strictly between them.  Each cycle is the
triple (last trough, center peak, next trough). -/
def cyclePoints (sig : Sig) : List (ℕ × ℕ × ℕ) :=
  (consecPairs (localTroughs sig)).map (fun p => (p.1, argmaxIdx sig p.1 p.2, p.2))

/-- Count of indices k in [a, b) where the signal strictly rises from k to
k+1. -/
def riseSteps (sig : Sig) (a b : ℕ) : ℕ :=
  ((List.range sig.length).filter (fun k =>
    decide (a ≤ k) && decide (k < b) &&
    decide (sig.getD k 0 < sig.getD (k + 1) 0))).length

/-- Count of indices k in [a, b) where the signal strictly falls from k to
k+1. -/
def decaySteps (sig : Sig) (a b : ℕ) : ℕ :=
  ((List.range sig.length).filter (fun k =>
    decide (a ≤ k) && decide (k < b) &&
    decide (sig.getD (k + 1) 0 < sig.getD k 0))).length

/-- Similarity ratio of two positive quantities: min over max, in [0, 1]. -/
def consistRatio (a b : ℚ) : ℚ :=
  if max a b = 0 then 0 else min a b / max a b

/-- Aggregate the two neighbor-comparison ratios of a cycle with the
configured mode (min, mean or max; min for unrecognized values). -/
def aggregate (mode : PyVal) (a b : ℚ) : ℚ :=
  match mode with
  | PyVal.str s => if s = "max" then max a b else if s = "mean" then (a + b) / 2 else min a b
  | PyVal.bool _ => min a b

/-- Consistency of entry i of vals with its immediate neighbors, combining
the two neighbor ratios with the aggregator; edge entries use their only
neighbor and a singleton list is fully consistent. -/
def neighborConsistency (mode : PyVal) (vals : List ℚ) (i : ℕ) : ℚ :=
  let n := vals.length
  if n ≤ 1 then 1
  else if i = 0 then consistRatio (vals.getD 0 0) (vals.getD 1 0)
  else if i + 1 = n then consistRatio (vals.getD (n - 1) 0) (vals.getD (n - 2) 0)
  else aggregate mode (consistRatio (vals.getD (i - 1) 0) (vals.getD i 0))
         (consistRatio (vals.getD i 0) (vals.getD (i + 1) 0))

/-- One row of a feature table: the shape descriptors and burst outputs of
one cycle. -/
structure CycleFeatureRecord where
  period : ℕ
  volt_amp : ℚ
  time_rdsym : ℚ
  time_ptsym : ℚ
  monotonicity : ℚ
  amp_fraction : ℚ
  amp_consistency : ℚ
  period_consistency : ℚ
  is_burst : Bool
deriving DecidableEq

/-- The sample indices of one cycle's boundary points. -/
structure CycleSamples where
  sample_last_trough : ℕ
  sample_peak : ℕ
  sample_next_trough : ℕ
deriving DecidableEq

/-- A feature table: ordered per-cycle records, optionally paired with the
raw cyclepoint samples. -/
structure FeatureTable where
  rows : List CycleFeatureRecord
  samples : Option (List CycleSamples)
deriving DecidableEq

/-- The empty feature table. -/
def emptyTable : FeatureTable := ⟨[], none⟩

/-- The per-unit configuration consumed by the single-signal pipeline. -/
structure FeatureConfig where
  center_extrema : String
  burst_method : String
  thresholds : PyDict
  consistency_mode : PyVal
deriving DecidableEq

/-- The default per-unit configuration. -/
def defaultConfig : FeatureConfig :=
  ⟨"peak", "cycles", default_thresholds, PyVal.str "min"⟩

/-- Modelled from the spec: the Single-Signal Pipeline (compute_features),
absent from the provided sources.  It sequences the cyclepoint
extractor, the shape feature computer and the consistency burst detector
into one deterministic pass, returning a feature table and, when
requested, the cyclepoint samples.  For trough-centered cycles the
signal is inverted first. -/
def compute_features (sig0 : Sig) (fs : ℚ) (f_range : ℚ × ℚ)
    (cfg : FeatureConfig) (return_samples : Bool) : FeatureTable :=
  let sig := if cfg.center_extrema = "trough" then sig0.map (fun x => -x) else sig0
  let cycles := cyclePoints sig
  let n := cycles.length
  let periods := cycles.map (fun c => c.2.2 - c.1)
  let amps := cycles.map (fun c =>
    ((sig.getD c.2.1 0 - sig.getD c.1 0) + (sig.getD c.2.1 0 - sig.getD c.2.2 0)) / 2)
  let maxAmp := amps.foldl max 0
  let thr := toBurstThresholds cfg.thresholds
  let measures := (List.range n).map (fun i =>
    CycleMeasures.mk
      (if maxAmp = 0 then 0 else amps.getD i 0 / maxAmp)
      (neighborConsistency cfg.consistency_mode amps i)
      (neighborConsistency cfg.consistency_mode (periods.map (fun p => (p : ℚ))) i)
      (let c := cycles.getD i (0, 0, 0)
       if c.2.2 - c.1 = 0 then 0
       else ((riseSteps sig c.1 c.2.1 + decaySteps sig c.2.1 c.2.2 : ℕ) : ℚ) / ((c.2.2 - c.1 : ℕ) : ℚ)))
  let flags := detect_bursts_cycles thr measures
  let rows := (List.range n).map (fun i =>
    let c := cycles.getD i (0, 0, 0)
    let m := measures.getD i (CycleMeasures.mk 0 0 0 0)
    CycleFeatureRecord.mk
      (periods.getD i 0)
      (amps.getD i 0)
      (if c.2.2 - c.1 = 0 then 0 else ((c.2.1 - c.1 : ℕ) : ℚ) / ((c.2.2 - c.1 : ℕ) : ℚ))
      (if c.2.2 - c.1 = 0 then 0 else ((c.2.2 - c.2.1 : ℕ) : ℚ) / ((c.2.2 - c.1 : ℕ) : ℚ))
      m.monotonicity m.amp_fraction m.amp_consistency m.period_consistency
      (flags.getD i false))
  let samples := if return_samples then
      some (cycles.map (fun c => CycleSamples.mk c.1 c.2.1 c.2.2)) else none
  ⟨rows, samples⟩

/-- The Bycycle object (fit.py class Bycycle): settings fixed at
construction, input attributes and the result attribute. -/
structure Bycycle where
  center_extrema : String
  burst_method : String
  burst_kwargs : PyDict
  thresholds : PyDict
  find_extrema_kwargs : PyDict
  consistency_mode : PyVal
  return_samples : Bool
  sig : Option Sig
  fs : Option ℚ
  f_range : Option (ℚ × ℚ)
  df_features : Option FeatureTable
deriving DecidableEq

/-- Bycycle.__init__ (fit.py lines 60-96): stores the settings, replacing a
None burst_kwargs with an empty dict, a None thresholds with the default
five-criterion dict and a None find_extrema_kwargs with the default
filter settings; the input and result attributes start as None.  The
parameters appear in the positional order of the Python signature. -/
def Bycycle.init (center_extrema : String) (burst_method : String)
    (burst_kwargs : Option PyDict) (thresholds : Option PyDict)
    (find_extrema_kwargs : Option PyDict) (consistency_mode : PyVal)
    (return_samples : Bool) : Bycycle :=
  ⟨center_extrema, burst_method,
   burst_kwargs.getD [],
   thresholds.getD default_thresholds,
   find_extrema_kwargs.getD default_find_extrema_kwargs,
   consistency_mode, return_samples,
   none, none, none, none⟩

/-- A validation, configuration-mismatch or indexing failure. -/
inductive BatchError where
  | validation
  | configMismatch
  | indexError
deriving DecidableEq

/-- Bycycle.fit (fit.py lines 99-123): raises a validation error when the
signal is not 1-dimensional, otherwise stores the inputs and the feature
table computed by the single-signal pipeline from the stored settings. -/
def Bycycle.fit (b : Bycycle) (sig : NDSig) (fs : ℚ) (f_range : ℚ × ℚ) :
    Except BatchError Bycycle :=
  match sig with
  | .d1 s =>
      .ok { b with
        sig := some s, fs := some fs, f_range := some f_range,
        df_features := some (compute_features s fs f_range
          ⟨b.center_extrema, b.burst_method, b.thresholds, b.consistency_mode⟩
          b.return_samples) }
  | _ => .error .validation

/-- Bycycle.load (fit.py lines 149-156): store externally computed results. -/
def Bycycle.load (b : Bycycle) (df_features : FeatureTable) (sig : Sig)
    (fs : ℚ) (f_range : ℚ × ℚ) : Bycycle :=
  { b with
    sig := some sig, fs := some fs, f_range := some f_range,
    df_features := some df_features }

/-- The per-unit configuration override of a 2d batch call: absent, one
mapping applied uniformly, or one mapping per row. -/
inductive KwargsSpec2 where
  | noneK
  | one (c : FeatureConfig)
  | many (cs : List FeatureConfig)
deriving DecidableEq

/-- The per-unit configuration override of a 3d batch call: absent, one
mapping, an outer sequence, or a fully nested sequence of mappings. -/
inductive KwargsSpec3 where
  | noneK
  | one (c : FeatureConfig)
  | outer (cs : List FeatureConfig)
  | nested (css : List (List FeatureConfig))
deriving DecidableEq

/-- The iteration axis of a 2d batch call. -/
inductive Axis2 where
  | zero
  | noneA
deriving DecidableEq

/-- The iteration axis of a 3d batch call. -/
inductive Axis3 where
  | zero
  | one
  | both
deriving DecidableEq

/-- Modelled from the spec: up-front normalization of the 2d per-unit
configuration override into one configuration per unit; a sequence whose
length differs from the unit count is a configuration error, detected
before any computation. -/
def normalize_kwargs_2d (kw : KwargsSpec2) (n : ℕ) :
    Except BatchError (List FeatureConfig) :=
  match kw with
  | .noneK => .ok (List.replicate n defaultConfig)
  | .one c => .ok (List.replicate n c)
  | .many cs => if cs.length = n then .ok cs else .error .configMismatch

/-- Modelled from the spec: normalization of the 3d per-unit configuration
override for independent-signal iteration; an outer sequence must match
the outer dimension and nested inner sequences must match the inner
dimension, else a configuration error is raised before any computation. -/
def normalize_kwargs_3d (kw : KwargsSpec3) (sigs : List (List Sig)) :
    Except BatchError (List (List FeatureConfig)) :=
  match kw with
  | .noneK => .ok (sigs.map (fun row => row.map (fun _ => defaultConfig)))
  | .one c => .ok (sigs.map (fun row => row.map (fun _ => c)))
  | .outer cs =>
      if cs.length = sigs.length then
        .ok ((sigs.zip cs).map (fun p => p.1.map (fun _ => p.2)))
      else .error .configMismatch
  | .nested css =>
      if css.length == sigs.length &&
         (css.zip sigs).all (fun p => p.1.length == p.2.length) then
        .ok css
      else .error .configMismatch

/-- Modelled from the spec: parallel fan-out/fan-in over independent units.
The schedule is the order in which workers complete the units; each
completed unit writes its result into the slot of its input index, so the
gathered output is index-aligned with the input regardless of completion
order. -/
def runSched {α β : Type} (f : α → β) (units : List α) (sched : List ℕ) :
    List (Option β) :=
  sched.foldl (fun acc j => acc.set j ((units[j]?).map f)) (List.replicate units.length none)

/-- The sequential schedule: units complete in input-index order. -/
def seqSched (n : ℕ) : List ℕ := List.range n

/-- Modelled from the spec: the 2d Batch Dispatcher (compute_features_2d),
absent from the provided sources.  Axis 0 runs the pipeline on every row
independently under the normalized per-row configuration; axis None runs
it once on the flattened rows.  Configuration normalization happens
before any unit runs. -/
def compute_features_2d (sigs : List Sig) (fs : ℚ) (f_range : ℚ × ℚ)
    (kw : KwargsSpec2) (axis : Axis2) (return_samples : Bool)
    (sched : List ℕ) : Except BatchError (List FeatureTable) :=
  match axis with
  | .noneA =>
      match normalize_kwargs_2d kw 1 with
      | .error e => .error e
      | .ok cfgs =>
          .ok [compute_features sigs.flatten fs f_range (cfgs.getD 0 defaultConfig) return_samples]
  | .zero =>
      match normalize_kwargs_2d kw sigs.length with
      | .error e => .error e
      | .ok cfgs =>
          let units := sigs.zip cfgs
          let slots := runSched (fun u => compute_features u.1 fs f_range u.2 return_samples)
            units sched
          .ok (slots.map (fun o => o.getD emptyTable))

/-- The nested output container of a 3d batch call. -/
inductive BatchResult3 where
  | flat (ts : List FeatureTable)
  | nested (tss : List (List FeatureTable))
deriving DecidableEq

/-- Split a flat list into consecutive chunks of the given lengths. -/
def chunk {β : Type} : List β → List ℕ → List (List β)
  | _, [] => []
  | l, n :: ns => l.take n :: chunk (l.drop n) ns

/-- Modelled from the spec: the 3d Batch Dispatcher (compute_features_3d),
absent from the provided sources.  Axis (0,1) iterates every signal
independently and reassembles the outputs into a nested container
mirroring the input structure; axes 0 and 1 flatten 2d slices along the
other dimension into one signal per slice.  Configuration normalization
happens before any unit runs. -/
def compute_features_3d (sigs : List (List Sig)) (fs : ℚ) (f_range : ℚ × ℚ)
    (kw : KwargsSpec3) (axis : Axis3) (return_samples : Bool)
    (sched : List ℕ) : Except BatchError BatchResult3 :=
  match axis with
  | .both =>
      match normalize_kwargs_3d kw sigs with
      | .error e => .error e
      | .ok css =>
          let units := ((sigs.zip css).map (fun p => p.1.zip p.2)).flatten
          let slots := runSched (fun u => compute_features u.1 fs f_range u.2 return_samples)
            units sched
          let flat := slots.map (fun o => o.getD emptyTable)
          .ok (.nested (chunk flat (sigs.map List.length)))
  | .zero =>
      match (match kw with
        | .noneK => Except.ok (List.replicate sigs.length defaultConfig)
        | .one c => Except.ok (List.replicate sigs.length c)
        | .outer cs =>
            if cs.length = sigs.length then Except.ok cs
            else Except.error BatchError.configMismatch
        | .nested _ => Except.error BatchError.configMismatch) with
      | .error e => .error e
      | .ok cfgs =>
          let units := (sigs.map List.flatten).zip cfgs
          let slots := runSched (fun u => compute_features u.1 fs f_range u.2 return_samples)
            units sched
          .ok (.flat (slots.map (fun o => o.getD emptyTable)))
  | .one =>
      match (match kw with
        | .noneK => Except.ok (List.replicate sigs.transpose.length defaultConfig)
        | .one c => Except.ok (List.replicate sigs.transpose.length c)
        | .outer cs =>
            if cs.length = sigs.transpose.length then Except.ok cs
            else Except.error BatchError.configMismatch
        | .nested _ => Except.error BatchError.configMismatch) with
      | .error e => .error e
      | .ok cfgs =>
          let units := (sigs.transpose.map List.flatten).zip cfgs
          let slots := runSched (fun u => compute_features u.1 fs f_range u.2 return_samples)
            units sched
          .ok (.flat (slots.map (fun o => o.getD emptyTable)))

/-- The dfs_features attribute of a group: initially a flat empty list,
after a 2d fit a flat list of Bycycle objects and after a 3d fit a
nested list of lists of Bycycle objects. -/
inductive GroupResults where
  | flat (l : List Bycycle)
  | nested (ll : List (List Bycycle))
deriving DecidableEq

/-- An element yielded by indexing into or iterating over a group: a single
Bycycle object (2d results) or a row of Bycycle objects (3d results). -/
inductive GroupItem where
  | single (b : Bycycle)
  | row (r : List Bycycle)
deriving DecidableEq

/-- The axis argument of BycycleGroup.fit. -/
inductive AxisSel where
  | a0
  | a1
  | a01
  | aNone
deriving DecidableEq

/-- Interpretation of the axis argument for a 2d input. -/
def AxisSel.to2 : AxisSel → Except BatchError Axis2
  | .a0 => .ok .zero
  | .aNone => .ok .noneA
  | _ => .error .validation

/-- Interpretation of the axis argument for a 3d input. -/
def AxisSel.to3 : AxisSel → Except BatchError Axis3
  | .a0 => .ok .zero
  | .a1 => .ok .one
  | .a01 => .ok .both
  | _ => .error .validation

/-- The BycycleGroup object (fit.py class BycycleGroup): settings fixed at
construction, input attributes and the per-unit results. -/
structure BycycleGroup where
  center_extrema : String
  burst_method : String
  burst_kwargs : PyDict
  thresholds : PyDict
  find_extrema_kwargs : PyDict
  consistency_mode : PyVal
  return_samples : Bool
  sigs : Option NDSig
  fs : Option ℚ
  f_range : Option (ℚ × ℚ)
  axis : Option AxisSel
  n_jobs : Option ℤ
  dfs_features : GroupResults
deriving DecidableEq

/-- BycycleGroup.__init__ (fit.py lines 222-258): stores the settings with
the same None replacements as Bycycle.__init__; the input attributes
start as None and dfs_features starts as the empty list. -/
def BycycleGroup.init (center_extrema : String) (burst_method : String)
    (burst_kwargs : Option PyDict) (thresholds : Option PyDict)
    (find_extrema_kwargs : Option PyDict) (consistency_mode : PyVal)
    (return_samples : Bool) : BycycleGroup :=
  ⟨center_extrema, burst_method,
   burst_kwargs.getD [],
   thresholds.getD default_thresholds,
   find_extrema_kwargs.getD default_find_extrema_kwargs,
   consistency_mode, return_samples,
   none, none, none, none, none,
   .flat []⟩

/-- BycycleGroup.__len__ (fit.py lines 261-264): the length of
dfs_features. -/
def BycycleGroup.lenG (g : BycycleGroup) : ℕ :=
  match g.dfs_features with
  | .flat l => l.length
  | .nested ll => ll.length

/-- BycycleGroup.__iter__ (fit.py lines 267-271): yields the elements of
dfs_features in order. -/
def BycycleGroup.items (g : BycycleGroup) : List GroupItem :=
  match g.dfs_features with
  | .flat l => l.map GroupItem.single
  | .nested ll => ll.map GroupItem.row

/-- BycycleGroup.__getitem__ (fit.py lines 274-277): indexes into
dfs_features (none models the IndexError of an out-of-range index). -/
def BycycleGroup.getItem (g : BycycleGroup) (index : ℕ) : Option GroupItem :=
  match g.dfs_features with
  | .flat l => (l[index]?).map GroupItem.single
  | .nested ll => (ll[index]?).map GroupItem.row

/-- The per-unit Bycycle object constructed inside BycycleGroup.fit
(fit.py lines 352-353 and 363-364): the group settings are passed as six
positional arguments, so the group's return_samples lands in the
consistency_mode parameter slot and the return_samples parameter keeps
its default True. -/
def BycycleGroup.mkUnit (g : BycycleGroup) : Bycycle :=
  Bycycle.init g.center_extrema g.burst_method (some g.burst_kwargs)
    (some g.thresholds) (some g.find_extrema_kwargs)
    (PyVal.bool g.return_samples) true

/-- BycycleGroup.fit (fit.py lines 280-369): raises a validation error
unless the input is 2- or 3-dimensional, otherwise stores the inputs,
dispatches to the batch feature computation matching the input dimension
and converts each returned feature table into a loaded per-unit Bycycle
object, index-aligned with the input rows.  A result whose shape does
not cover the input rows is an indexing error. -/
def BycycleGroup.fit (g : BycycleGroup) (sigs : NDSig) (fs : ℚ)
    (f_range : ℚ × ℚ) (axis : AxisSel) (n_jobs : ℤ) (sched : List ℕ) :
    Except BatchError BycycleGroup :=
  match sigs with
  | .d1 _ => .error .validation
  | .d2 rows =>
      match axis.to2 with
      | .error e => .error e
      | .ok ax2 =>
          let cfg : FeatureConfig :=
            ⟨g.center_extrema, g.burst_method, g.thresholds, g.consistency_mode⟩
          match compute_features_2d rows fs f_range (.one cfg) ax2 g.return_samples sched with
          | .error e => .error e
          | .ok features =>
              if features.length = rows.length then
                .ok { g with
                  sigs := some sigs, fs := some fs, f_range := some f_range,
                  axis := some axis, n_jobs := some n_jobs,
                  dfs_features := .flat ((rows.zip features).map (fun p =>
                    (g.mkUnit).load p.2 p.1 fs f_range)) }
              else .error .indexError
  | .d3 slices =>
      match axis.to3 with
      | .error e => .error e
      | .ok ax3 =>
          let cfg : FeatureConfig :=
            ⟨g.center_extrema, g.burst_method, g.thresholds, g.consistency_mode⟩
          match compute_features_3d slices fs f_range (.one cfg) ax3 g.return_samples sched with
          | .error e => .error e
          | .ok (.flat _) => .error .indexError
          | .ok (.nested tss) =>
              if (tss.length == slices.length &&
                  (tss.zip slices).all (fun p => p.1.length == p.2.length)) = true then
                .ok { g with
                  sigs := some sigs, fs := some fs, f_range := some f_range,
                  axis := some axis, n_jobs := some n_jobs,
                  dfs_features := .nested ((slices.zip tss).map (fun p =>
                    (p.1.zip p.2).map (fun q => (g.mkUnit).load q.2 q.1 fs f_range))) }
              else .error .indexError

/-- Folding slot writes preserves the slot-array length. -/
theorem foldlSet_length {α β : Type} (f : α → β) (units : List α) :
    ∀ (sched : List ℕ) (acc : List (Option β)),
      (sched.foldl (fun a j => a.set j ((units[j]?).map f)) acc).length = acc.length := by
  intro sched
  induction sched with
  | nil => intro acc; rfl
  | cons s t ih =>
      intro acc
      simpa [List.foldl_cons] using ih (acc.set s ((units[s]?).map f))

/-- After all scheduled writes, a slot that was scheduled (or already held
its final value) holds the result of its own unit, independent of the
write order. -/
theorem foldlSet_getElem {α β : Type} (f : α → β) (units : List α) :
    ∀ (sched : List ℕ) (acc : List (Option β)) (j : ℕ),
      acc.length = units.length → j < units.length →
      (j ∈ sched ∨ acc[j]? = some ((units[j]?).map f)) →
      (sched.foldl (fun a i => a.set i ((units[i]?).map f)) acc)[j]?
        = some ((units[j]?).map f) := by
  intro sched
  induction sched with
  | nil =>
      intro acc j _ _ h
      rcases h with h | h
      · simp at h
      · simpa using h
  | cons s t ih =>
      intro acc j hlen hj h
      rw [List.foldl_cons]
      by_cases hjs : j = s
      · subst hjs
        refine ih (acc.set j ((units[j]?).map f)) j (by simpa using hlen) hj (Or.inr ?_)
        rw [List.getElem?_set_self (hlen ▸ hj)]
      · refine ih (acc.set s ((units[s]?).map f)) j (by simpa using hlen) hj ?_
        rcases h with h | h
        · rcases List.mem_cons.mp h with h | h
          · exact absurd h.symm (fun he => hjs he.symm)
          · exact Or.inl h
        · refine Or.inr ?_
          rw [List.getElem?_set_ne (fun he => hjs he.symm)]
          exact h

/-- Gathering under any schedule that completes every unit exactly once
yields exactly the input-order map of the pipeline over the units. -/
theorem runSched_perm {α β : Type} (f : α → β) (units : List α)
    (sched : List ℕ) (h : sched.Perm (List.range units.length)) :
    runSched f units sched = units.map (fun u => some (f u)) := by
  apply List.ext_getElem?
  intro j
  by_cases hj : j < units.length
  · have hmem : j ∈ sched := h.mem_iff.mpr (List.mem_range.mpr hj)
    rw [runSched, foldlSet_getElem f units sched (List.replicate units.length none) j
      (by simp) hj (Or.inl hmem)]
    simp [List.getElem?_eq_getElem hj, List.getElem?_map]
  · have h1 : (runSched f units sched).length ≤ j := by
      rw [runSched, foldlSet_length]
      simpa using Nat.le_of_not_lt hj
    have h2 : (units.map (fun u => some (f u))).length ≤ j := by
      simpa using Nat.le_of_not_lt hj
    rw [List.getElem?_eq_none h1, List.getElem?_eq_none h2]

/-- The sequential schedule gathers the input-order map of the units. -/
theorem runSched_seq {α β : Type} (f : α → β) (units : List α) :
    runSched f units (seqSched units.length) = units.map (fun u => some (f u)) :=
  runSched_perm f units (seqSched units.length) (List.Perm.refl _)

/-- A normalized 2d configuration list has one entry per unit. -/
theorem normalize_kwargs_2d_length (kw : KwargsSpec2) (n : ℕ)
    (cfgs : List FeatureConfig) (h : normalize_kwargs_2d kw n = .ok cfgs) :
    cfgs.length = n := by
  cases kw with
  | noneK => simp [normalize_kwargs_2d] at h; simp [← h]
  | one c => simp [normalize_kwargs_2d] at h; simp [← h]
  | many cs =>
      by_cases hl : cs.length = n
      · simp [normalize_kwargs_2d, hl] at h; simp [← h, hl]
      · simp [normalize_kwargs_2d, hl] at h

/-- The number of independent pipeline invocations of a 2d batch call. -/
def unitCount2 (sigs : List Sig) : Axis2 → ℕ
  | .zero => sigs.length
  | .noneA => 1

/-- The number of independent pipeline invocations of a 3d batch call. -/
def unitCount3 (sigs : List (List Sig)) : Axis3 → ℕ
  | .zero => sigs.length
  | .one => sigs.transpose.length
  | .both => (sigs.map List.length).sum

/-- Broadcasting one configuration per outer row yields row-matching inner
lengths. -/
theorem forall2_broadcast (sigs : List (List Sig)) :
    ∀ (cs : List FeatureConfig), cs.length = sigs.length →
    List.Forall₂ (fun (row : List Sig) (cs2 : List FeatureConfig) => cs2.length = row.length)
      sigs ((sigs.zip cs).map (fun p => p.1.map (fun _ => p.2))) := by
  induction sigs with
  | nil => intro cs _; simp
  | cons r rest ih =>
      intro cs hlen
      cases cs with
      | nil => simp at hlen
      | cons c cs2 =>
          simp only [List.zip_cons_cons, List.map_cons]
          exact List.Forall₂.cons (by simp) (ih cs2 (by simpa using hlen))

/-- Pairwise equal inner lengths, stated on the zipped lists, give the
Forall₂ form. -/
theorem forall2_of_zip_lengths :
    ∀ (sigs : List (List Sig)) (css : List (List FeatureConfig)),
      css.length = sigs.length →
      (∀ p ∈ css.zip sigs, p.1.length = p.2.length) →
      List.Forall₂ (fun (row : List Sig) (cs : List FeatureConfig) => cs.length = row.length)
        sigs css := by
  intro sigs
  induction sigs with
  | nil =>
      intro css hlen _
      cases css with
      | nil => exact List.Forall₂.nil
      | cons c cs => simp at hlen
  | cons r rest ih =>
      intro css hlen hall
      cases css with
      | nil => simp at hlen
      | cons c cs =>
          refine List.Forall₂.cons ?_ (ih cs (by simpa using hlen) ?_)
          · exact hall (c, r) (by simp)
          · intro p hp; exact hall p (by simp [hp])

/-- A successful 3d normalization returns one configuration row per input
row, with matching inner lengths. -/
theorem normalize_kwargs_3d_forall2 (kw : KwargsSpec3) (sigs : List (List Sig))
    (css : List (List FeatureConfig)) (h : normalize_kwargs_3d kw sigs = .ok css) :
    List.Forall₂ (fun (row : List Sig) (cs : List FeatureConfig) => cs.length = row.length)
      sigs css := by
  cases kw with
  | noneK =>
      simp only [normalize_kwargs_3d, Except.ok.injEq] at h
      rw [← h, List.forall₂_map_right_iff]
      exact List.forall₂_same.mpr (fun x _ => by simp)
  | one c =>
      simp only [normalize_kwargs_3d, Except.ok.injEq] at h
      rw [← h, List.forall₂_map_right_iff]
      exact List.forall₂_same.mpr (fun x _ => by simp)
  | outer cs =>
      by_cases hl : cs.length = sigs.length
      · simp only [normalize_kwargs_3d, hl, if_true, Except.ok.injEq] at h
        rw [← h]
        exact forall2_broadcast sigs cs hl
      · simp [normalize_kwargs_3d, hl] at h
  | nested css2 =>
      by_cases hg : (css2.length == sigs.length &&
          (css2.zip sigs).all (fun p => p.1.length == p.2.length)) = true
      · simp only [normalize_kwargs_3d, hg, if_true, Except.ok.injEq] at h
        rw [← h]
        rcases Bool.and_eq_true_iff.mp hg with ⟨h1, h2⟩
        refine forall2_of_zip_lengths sigs css2 (by simpa using h1) ?_
        intro p hp
        have := List.all_eq_true.mp h2 p hp
        simpa using this
      · simp [normalize_kwargs_3d] at h
        rw [if_neg (by simpa using hg)] at h
        cases h

/-- With one configuration per signal, the flattened unit list of an
independent 3d iteration has one unit per innermost signal. -/
theorem units3_length {sigs : List (List Sig)} {css : List (List FeatureConfig)}
    (h : List.Forall₂ (fun (row : List Sig) (cs : List FeatureConfig) => cs.length = row.length)
      sigs css) :
    (((sigs.zip css).map (fun p => p.1.zip p.2)).flatten).length
      = (sigs.map List.length).sum := by
  induction h with
  | nil => simp
  | cons h1 _h2 ih =>
      simp only [List.zip_cons_cons, List.map_cons, List.flatten_cons, List.length_append,
        List.sum_cons, ih, List.length_zip, h1]
      simp [Nat.min_self]

/-- Claim C1: for every 2d or 3d signal collection, batch feature
computation under any worker completion schedule that covers every unit
exactly once (any worker count) returns output element-wise identical,
in the same input-index order, to the sequential single-worker result. -/
theorem c1_parallel_sequential_equivalence :
    (∀ (sigs : List Sig) (fs : ℚ) (fr : ℚ × ℚ) (kw : KwargsSpec2) (ax : Axis2)
       (rs : Bool) (sched : List ℕ),
       sched.Perm (List.range (unitCount2 sigs ax)) →
       compute_features_2d sigs fs fr kw ax rs sched
         = compute_features_2d sigs fs fr kw ax rs (seqSched (unitCount2 sigs ax)))
    ∧ (∀ (sigs : List (List Sig)) (fs : ℚ) (fr : ℚ × ℚ) (kw : KwargsSpec3) (ax : Axis3)
       (rs : Bool) (sched : List ℕ),
       sched.Perm (List.range (unitCount3 sigs ax)) →
       compute_features_3d sigs fs fr kw ax rs sched
         = compute_features_3d sigs fs fr kw ax rs (seqSched (unitCount3 sigs ax))) := by
  constructor
  · intro sigs fs fr kw ax rs sched hperm
    cases ax with
    | noneA => rfl
    | zero =>
        cases hnk : normalize_kwargs_2d kw sigs.length with
        | error e => simp [compute_features_2d, hnk]
        | ok cfgs =>
            have hlen : cfgs.length = sigs.length := normalize_kwargs_2d_length kw _ cfgs hnk
            have hul : (sigs.zip cfgs).length = sigs.length := by simp [hlen]
            have h1 := runSched_perm (fun u => compute_features u.1 fs fr u.2 rs)
              (sigs.zip cfgs) sched (by rw [hul]; exact hperm)
            have h2 := runSched_perm (fun u => compute_features u.1 fs fr u.2 rs)
              (sigs.zip cfgs) (seqSched sigs.length)
              (by rw [hul]; exact List.Perm.refl _)
            simp only [compute_features_2d, hnk, unitCount2]
            rw [h1, h2]
  · intro sigs fs fr kw ax rs sched hperm
    cases ax with
    | both =>
        cases hnk : normalize_kwargs_3d kw sigs with
        | error e => simp [compute_features_3d, hnk]
        | ok css =>
            have hf2 := normalize_kwargs_3d_forall2 kw sigs css hnk
            have hul := units3_length hf2
            have h1 := runSched_perm (fun u => compute_features u.1 fs fr u.2 rs)
              (((sigs.zip css).map (fun p => p.1.zip p.2)).flatten) sched
              (by rw [hul]; exact hperm)
            have h2 := runSched_perm (fun u => compute_features u.1 fs fr u.2 rs)
              (((sigs.zip css).map (fun p => p.1.zip p.2)).flatten)
              (seqSched ((sigs.map List.length).sum))
              (by rw [hul]; exact List.Perm.refl _)
            simp only [compute_features_3d, hnk, unitCount3]
            rw [h1, h2]
    | zero =>
        cases kw with
        | noneK =>
            have hul : ((sigs.map List.flatten).zip
                (List.replicate sigs.length defaultConfig)).length = sigs.length := by simp
            have h1 := runSched_perm (fun u => compute_features u.1 fs fr u.2 rs)
              ((sigs.map List.flatten).zip (List.replicate sigs.length defaultConfig)) sched
              (by rw [hul]; exact hperm)
            have h2 := runSched_perm (fun u => compute_features u.1 fs fr u.2 rs)
              ((sigs.map List.flatten).zip (List.replicate sigs.length defaultConfig))
              (seqSched sigs.length) (by rw [hul]; exact List.Perm.refl _)
            simp only [compute_features_3d, unitCount3]
            rw [h1, h2]
        | one c =>
            have hul : ((sigs.map List.flatten).zip
                (List.replicate sigs.length c)).length = sigs.length := by simp
            have h1 := runSched_perm (fun u => compute_features u.1 fs fr u.2 rs)
              ((sigs.map List.flatten).zip (List.replicate sigs.length c)) sched
              (by rw [hul]; exact hperm)
            have h2 := runSched_perm (fun u => compute_features u.1 fs fr u.2 rs)
              ((sigs.map List.flatten).zip (List.replicate sigs.length c))
              (seqSched sigs.length) (by rw [hul]; exact List.Perm.refl _)
            simp only [compute_features_3d, unitCount3]
            rw [h1, h2]
        | outer cs =>
            by_cases hl : cs.length = sigs.length
            · have hul : ((sigs.map List.flatten).zip cs).length = sigs.length := by
                simp [hl]
              have h1 := runSched_perm (fun u => compute_features u.1 fs fr u.2 rs)
                ((sigs.map List.flatten).zip cs) sched (by rw [hul]; exact hperm)
              have h2 := runSched_perm (fun u => compute_features u.1 fs fr u.2 rs)
                ((sigs.map List.flatten).zip cs) (seqSched sigs.length)
                (by rw [hul]; exact List.Perm.refl _)
              simp only [compute_features_3d, unitCount3, hl, if_true]
              rw [h1, h2]
            · simp [compute_features_3d, hl]
        | nested css => simp [compute_features_3d]
    | one =>
        cases kw with
        | noneK =>
            have hul : ((sigs.transpose.map List.flatten).zip
                (List.replicate sigs.transpose.length defaultConfig)).length
                  = sigs.transpose.length := by simp
            have h1 := runSched_perm (fun u => compute_features u.1 fs fr u.2 rs)
              ((sigs.transpose.map List.flatten).zip
                (List.replicate sigs.transpose.length defaultConfig)) sched
              (by rw [hul]; exact hperm)
            have h2 := runSched_perm (fun u => compute_features u.1 fs fr u.2 rs)
              ((sigs.transpose.map List.flatten).zip
                (List.replicate sigs.transpose.length defaultConfig))
              (seqSched sigs.transpose.length) (by rw [hul]; exact List.Perm.refl _)
            simp only [compute_features_3d, unitCount3]
            rw [h1, h2]
        | one c =>
            have hul : ((sigs.transpose.map List.flatten).zip
                (List.replicate sigs.transpose.length c)).length
                  = sigs.transpose.length := by simp
            have h1 := runSched_perm (fun u => compute_features u.1 fs fr u.2 rs)
              ((sigs.transpose.map List.flatten).zip
                (List.replicate sigs.transpose.length c)) sched
              (by rw [hul]; exact hperm)
            have h2 := runSched_perm (fun u => compute_features u.1 fs fr u.2 rs)
              ((sigs.transpose.map List.flatten).zip
                (List.replicate sigs.transpose.length c))
              (seqSched sigs.transpose.length) (by rw [hul]; exact List.Perm.refl _)
            simp only [compute_features_3d, unitCount3]
            rw [h1, h2]
        | outer cs =>
            by_cases hl : cs.length = sigs.transpose.length
            · have hul : ((sigs.transpose.map List.flatten).zip cs).length
                  = sigs.transpose.length := by simp [hl]
              have h1 := runSched_perm (fun u => compute_features u.1 fs fr u.2 rs)
                ((sigs.transpose.map List.flatten).zip cs) sched (by rw [hul]; exact hperm)
              have h2 := runSched_perm (fun u => compute_features u.1 fs fr u.2 rs)
                ((sigs.transpose.map List.flatten).zip cs) (seqSched sigs.transpose.length)
                (by rw [hul]; exact List.Perm.refl _)
              simp only [compute_features_3d, unitCount3, hl, if_true]
              rw [h1, h2]
            · simp [compute_features_3d, hl]
        | nested css => simp [compute_features_3d]

/-- A claim C1 instance: gathering two rows in reversed completion order
equals the sequential result. -/
theorem c1_parallel_sequential_equivalence_witness :
    compute_features_2d [[0, 1, 0, -1, 0], [0, 2, 0, -2, 0]] 10 (6, 14)
      KwargsSpec2.noneK Axis2.zero false [1, 0]
    = compute_features_2d [[0, 1, 0, -1, 0], [0, 2, 0, -2, 0]] 10 (6, 14)
      KwargsSpec2.noneK Axis2.zero false
      (seqSched (unitCount2 [[0, 1, 0, -1, 0], [0, 2, 0, -2, 0]] Axis2.zero)) :=
  c1_parallel_sequential_equivalence.1 [[0, 1, 0, -1, 0], [0, 2, 0, -2, 0]] 10 (6, 14)
    KwargsSpec2.noneK Axis2.zero false [1, 0] (by decide)

/-- The gathered slot list has one slot per unit. -/
theorem runSched_length {α β : Type} (f : α → β) (units : List α) (sched : List ℕ) :
    (runSched f units sched).length = units.length := by
  rw [runSched, foldlSet_length]
  simp

/-- Claim C2: a per-unit configuration override sequence whose length does
not match the unit count (rows for 2d; outer dimension for the outer
sequence and inner dimension for nested inner sequences in 3d) is a
configuration error, returned before any per-unit computation, with no
partial result. -/
theorem c2_kwargs_length_mismatch :
    (∀ (sigs : List Sig) (fs : ℚ) (fr : ℚ × ℚ) (cs : List FeatureConfig)
       (rs : Bool) (sched : List ℕ),
       cs.length ≠ sigs.length →
       compute_features_2d sigs fs fr (.many cs) .zero rs sched
         = .error .configMismatch)
    ∧ (∀ (sigs : List (List Sig)) (fs : ℚ) (fr : ℚ × ℚ) (cs : List FeatureConfig)
       (rs : Bool) (sched : List ℕ),
       cs.length ≠ sigs.length →
       compute_features_3d sigs fs fr (.outer cs) .both rs sched
         = .error .configMismatch)
    ∧ (∀ (sigs : List (List Sig)) (fs : ℚ) (fr : ℚ × ℚ)
       (css : List (List FeatureConfig)) (rs : Bool) (sched : List ℕ),
       (∃ p ∈ css.zip sigs, p.1.length ≠ p.2.length) →
       compute_features_3d sigs fs fr (.nested css) .both rs sched
         = .error .configMismatch) := by
  refine ⟨?_, ?_, ?_⟩
  · intro sigs fs fr cs rs sched h
    simp [compute_features_2d, normalize_kwargs_2d, h]
  · intro sigs fs fr cs rs sched h
    simp [compute_features_3d, normalize_kwargs_3d, h]
  · intro sigs fs fr css rs sched hex
    rcases hex with ⟨p, hp, hne⟩
    have hall : ¬ ((css.zip sigs).all (fun q => q.1.length == q.2.length) = true) := by
      intro hc
      exact hne (by simpa using List.all_eq_true.mp hc p hp)
    have hguard : (css.length == sigs.length &&
        (css.zip sigs).all (fun q => q.1.length == q.2.length)) = false := by
      cases hx : (css.zip sigs).all (fun q => q.1.length == q.2.length) with
      | true => exact absurd hx hall
      | false => simp [hx]
    simp [compute_features_3d, normalize_kwargs_3d, hguard]

/-- A claim C2 instance: one override for two rows is rejected as a
configuration error. -/
theorem c2_kwargs_length_mismatch_witness :
    compute_features_2d [[0], [1]] 1 (1, 2) (.many [defaultConfig]) .zero false []
      = .error .configMismatch :=
  c2_kwargs_length_mismatch.1 [[0], [1]] 1 (1, 2) [defaultConfig] false [] (by decide)

/-- Chunking produces one chunk per requested length. -/
theorem chunk_length {β : Type} : ∀ (ns : List ℕ) (l : List β),
    (chunk l ns).length = ns.length := by
  intro ns
  induction ns with
  | nil => intro l; rfl
  | cons n rest ih => intro l; simp [chunk, ih]

/-- When the flat list exactly covers the requested lengths, every chunk
has its requested length. -/
theorem chunk_forall2 {β : Type} : ∀ (ns : List ℕ) (l : List β),
    l.length = ns.sum →
    List.Forall₂ (fun (c : List β) n => c.length = n) (chunk l ns) ns := by
  intro ns
  induction ns with
  | nil => intro l _; exact List.Forall₂.nil
  | cons n rest ih =>
      intro l hlen
      rw [List.sum_cons] at hlen
      refine List.Forall₂.cons ?_ (ih (l.drop n) ?_)
      · simp only [List.length_take]
        omega
      · simp only [List.length_drop]
        omega

/-- Chunks aligned with an all-equal length list all have that length. -/
theorem forall2_chunk_const {β : Type} {B : ℕ} :
    ∀ {tss : List (List β)} {ns : List ℕ},
      List.Forall₂ (fun (c : List β) n => c.length = n) tss ns →
      (∀ n ∈ ns, n = B) → ∀ c ∈ tss, c.length = B := by
  intro tss ns h
  induction h with
  | nil => intro _ c hc; cases hc
  | cons h1 _h2 ih =>
      intro hB c hc
      rcases List.mem_cons.mp hc with rfl | hc2
      · rw [h1]; exact hB _ (by simp)
      · exact ih (fun n hn => hB n (by simp [hn])) c hc2

/-- Claim C3: a successfully configured 3d batch call over a rectangular
(A, B, T) input iterated per-signal returns a nested container with outer
length A and every inner list of length B, and a successfully configured
2d batch call over an (N, T) input iterated by rows returns a flat
sequence of length N, mirroring the input's iteration structure. -/
theorem c3_output_shape :
    (∀ (sigs : List (List Sig)) (A B : ℕ) (fs : ℚ) (fr : ℚ × ℚ) (kw : KwargsSpec3)
       (rs : Bool) (sched : List ℕ) (css : List (List FeatureConfig)),
       sigs.length = A → (∀ row ∈ sigs, row.length = B) →
       normalize_kwargs_3d kw sigs = .ok css →
       ∃ tss, compute_features_3d sigs fs fr kw .both rs sched = .ok (.nested tss)
         ∧ tss.length = A ∧ ∀ inner ∈ tss, inner.length = B)
    ∧ (∀ (sigs : List Sig) (N : ℕ) (fs : ℚ) (fr : ℚ × ℚ) (kw : KwargsSpec2)
       (rs : Bool) (sched : List ℕ) (cfgs : List FeatureConfig),
       sigs.length = N → normalize_kwargs_2d kw sigs.length = .ok cfgs →
       ∃ ts, compute_features_2d sigs fs fr kw .zero rs sched = .ok ts
         ∧ ts.length = N) := by
  constructor
  · intro sigs A B fs fr kw rs sched css hA hB hnk
    have hf2 := normalize_kwargs_3d_forall2 kw sigs css hnk
    have hflat : ((runSched (fun u => compute_features u.1 fs fr u.2 rs)
        (((sigs.zip css).map (fun p => p.1.zip p.2)).flatten) sched).map
          (fun o => o.getD emptyTable)).length = (sigs.map List.length).sum := by
      rw [List.length_map, runSched_length]
      exact units3_length hf2
    refine ⟨chunk ((runSched (fun u => compute_features u.1 fs fr u.2 rs)
        (((sigs.zip css).map (fun p => p.1.zip p.2)).flatten) sched).map
          (fun o => o.getD emptyTable)) (sigs.map List.length), ?_, ?_, ?_⟩
    · simp only [compute_features_3d, hnk]
    · rw [chunk_length, List.length_map, hA]
    · refine forall2_chunk_const (chunk_forall2 _ _ hflat) ?_
      intro n hn
      rcases List.mem_map.mp hn with ⟨row, hrow, rfl⟩
      exact hB row hrow
  · intro sigs N fs fr kw rs sched cfgs hN hnk
    refine ⟨(runSched (fun u => compute_features u.1 fs fr u.2 rs)
        (sigs.zip cfgs) sched).map (fun o => o.getD emptyTable), ?_, ?_⟩
    · simp only [compute_features_2d, hnk]
    · rw [List.length_map, runSched_length, List.length_zip,
        normalize_kwargs_2d_length kw _ cfgs hnk, hN, Nat.min_self]

/-- A claim C3 instance: a 2 by 1 array of signals yields a 2 by 1 nested
container of feature tables. -/
theorem c3_output_shape_witness :
    ∃ tss, compute_features_3d [[[0, 1, 0]], [[0, 2, 0]]] 5 (1, 2)
        KwargsSpec3.noneK .both true [0, 1] = .ok (.nested tss)
      ∧ tss.length = 2 ∧ ∀ inner ∈ tss, inner.length = 1 :=
  c3_output_shape.1 [[[0, 1, 0]], [[0, 2, 0]]] 2 1 5 (1, 2) KwargsSpec3.noneK true [0, 1]
    [[defaultConfig], [defaultConfig]] rfl (by decide) rfl

/-- Claim C4: a non-1d input to Bycycle.fit and a non-2d, non-3d input to
BycycleGroup.fit raise a validation error; the check precedes every
assignment and computation, so the error result carries no partial
state. -/
theorem c4_dimension_validation :
    (∀ (b : Bycycle) (sig : NDSig) (fs : ℚ) (fr : ℚ × ℚ),
       sig.ndim ≠ 1 → Bycycle.fit b sig fs fr = .error .validation)
    ∧ (∀ (g : BycycleGroup) (sigs : NDSig) (fs : ℚ) (fr : ℚ × ℚ) (axis : AxisSel)
       (nj : ℤ) (sched : List ℕ),
       sigs.ndim ≠ 2 → sigs.ndim ≠ 3 →
       BycycleGroup.fit g sigs fs fr axis nj sched = .error .validation) := by
  constructor
  · intro b sig fs fr h
    cases sig with
    | d1 s => exact absurd rfl h
    | d2 _ => rfl
    | d3 _ => rfl
  · intro g sigs fs fr axis nj sched h2 h3
    cases sigs with
    | d1 _ => rfl
    | d2 _ => exact absurd rfl h2
    | d3 _ => exact absurd rfl h3

/-- A claim C4 instance: fitting a 2d array with Bycycle and a 1d array
with BycycleGroup both fail validation. -/
theorem c4_dimension_validation_witness :
    Bycycle.fit (Bycycle.init "peak" "cycles" none none none (PyVal.str "min") true)
      (NDSig.d2 [[0]]) 1 (1, 2) = .error .validation
    ∧ BycycleGroup.fit
      (BycycleGroup.init "peak" "cycles" none none none (PyVal.str "min") true)
      (NDSig.d1 [0]) 1 (1, 2) .a0 1 [] = .error .validation :=
  ⟨c4_dimension_validation.1 _ (NDSig.d2 [[0]]) 1 (1, 2) (by decide),
   c4_dimension_validation.2 _ (NDSig.d1 [0]) 1 (1, 2) .a0 1 [] (by decide) (by decide)⟩

/-- Claim C6: a 2d batch of N identical copies of one signal under one
fixed configuration yields N identical feature tables. -/
theorem c6_replication_invariance (s : Sig) (N : ℕ) (c : FeatureConfig)
    (fs : ℚ) (fr : ℚ × ℚ) (rs : Bool) :
    compute_features_2d (List.replicate N s) fs fr (.one c) .zero rs (seqSched N)
      = .ok (List.replicate N (compute_features s fs fr c rs)) := by
  simp only [compute_features_2d, normalize_kwargs_2d, List.length_replicate]
  rw [List.zip_replicate']
  have hlen : (List.replicate N (s, c)).length = N := by simp
  rw [runSched_perm (fun u => compute_features u.1 fs fr u.2 rs)
    (List.replicate N (s, c)) (seqSched N) (by rw [hlen]; exact List.Perm.refl _)]
  rw [List.map_replicate, List.map_replicate]
  rfl

/-- Claim C7: Bycycle.fit is a deterministic function of the signal, the
sampling rate, the frequency range and the stored settings; fitting the
already-fitted object again with the same inputs reproduces the object
unchanged (byte-identical feature table). -/
theorem c7_fit_deterministic_idempotent (b : Bycycle) (sig : NDSig) (fs : ℚ)
    (fr : ℚ × ℚ) (b2 : Bycycle) (h : Bycycle.fit b sig fs fr = .ok b2) :
    Bycycle.fit b2 sig fs fr = .ok b2 := by
  cases sig with
  | d1 s =>
      simp only [Bycycle.fit, Except.ok.injEq] at h
      subst h
      rfl
  | d2 _ => cases h
  | d3 _ => cases h

/-- A concrete unfitted Bycycle object used to instantiate claim C7. -/
def c7base : Bycycle := Bycycle.init "peak" "cycles" none none none (PyVal.str "min") true

/-- The object produced by one fit of a concrete two-cycle signal. -/
def c7fitted : Bycycle :=
  ((Bycycle.fit c7base (NDSig.d1 [0, 1, 0, -1, 0, 1, 0, -1, 0]) 10 (6, 14)).toOption).getD c7base

/-- A claim C7 instance: refitting the already-fitted object reproduces it
exactly. -/
theorem c7_fit_deterministic_idempotent_witness :
    Bycycle.fit c7fitted (NDSig.d1 [0, 1, 0, -1, 0, 1, 0, -1, 0]) 10 (6, 14)
      = .ok c7fitted :=
  c7_fit_deterministic_idempotent c7base (NDSig.d1 [0, 1, 0, -1, 0, 1, 0, -1, 0])
    10 (6, 14) c7fitted rfl

/-- Claim C8: constructed with thresholds None, both Bycycle and
BycycleGroup store exactly the five named criteria with values 0, 1/2,
1/2, 4/5 and 3; a supplied thresholds mapping is stored unchanged. -/
theorem c8_threshold_defaults :
    (∀ (ce bm : String) (bk fek : Option PyDict) (cm : PyVal) (rs : Bool),
       (Bycycle.init ce bm bk none fek cm rs).thresholds
         = [("amp_fraction_threshold", 0), ("amp_consistency_threshold", 1/2),
            ("period_consistency_threshold", 1/2), ("monotonicity_threshold", 4/5),
            ("min_n_cycles", 3)])
    ∧ (∀ (ce bm : String) (bk fek : Option PyDict) (t : PyDict) (cm : PyVal) (rs : Bool),
       (Bycycle.init ce bm bk (some t) fek cm rs).thresholds = t)
    ∧ (∀ (ce bm : String) (bk fek : Option PyDict) (cm : PyVal) (rs : Bool),
       (BycycleGroup.init ce bm bk none fek cm rs).thresholds
         = [("amp_fraction_threshold", 0), ("amp_consistency_threshold", 1/2),
            ("period_consistency_threshold", 1/2), ("monotonicity_threshold", 4/5),
            ("min_n_cycles", 3)])
    ∧ (∀ (ce bm : String) (bk fek : Option PyDict) (t : PyDict) (cm : PyVal) (rs : Bool),
       (BycycleGroup.init ce bm bk (some t) fek cm rs).thresholds = t) :=
  ⟨fun _ _ _ _ _ _ => rfl, fun _ _ _ _ _ _ _ => rfl,
   fun _ _ _ _ _ _ => rfl, fun _ _ _ _ _ _ _ => rfl⟩

/-- Within a run of true entries that starts at index a (with a false entry
or the list start just before it), the backward count at any index of the
run measures the distance to the run start. -/
theorem backCount_run (ps : List Bool) (a : ℕ) :
    ∀ i, a ≤ i →
    (∀ j, a ≤ j → j ≤ i → ps.getD j false = true) →
    (a = 0 ∨ ps.getD (a - 1) false = false) →
    backCount ps i = i + 1 - a := by
  intro i
  induction i with
  | zero =>
      intro ha hall _
      have ha0 : a = 0 := Nat.le_zero.mp ha
      subst ha0
      have h0 : ps.getD 0 false = true := hall 0 (Nat.le_refl 0) (Nat.le_refl 0)
      simp only [backCount, h0, if_true]
  | succ i ih =>
      intro ha hall hb
      have htop : ps.getD (i + 1) false = true := hall (i + 1) ha (Nat.le_refl _)
      rcases Nat.lt_or_ge a (i + 1) with hlt | hge
      · have hai : a ≤ i := Nat.lt_succ_iff.mp hlt
        have hrec := ih hai (fun j h1 h2 => hall j h1 (Nat.le_succ_of_le h2)) hb
        simp only [backCount, htop, if_true]
        omega
      · have hae : a = i + 1 := Nat.le_antisymm ha hge
        subst hae
        have hprev : ps.getD i false = false := by
          rcases hb with h0 | hf
          · omega
          · simpa using hf
        have hzero : backCount ps i = 0 := by
          cases i with
          | zero => simp only [backCount, hprev]; simp
          | succ k => simp only [backCount, hprev]; simp
        simp only [backCount, htop, if_true, hzero]
        omega

/-- A list whose first k entries are true and whose entry k is false (or
absent) has forward count exactly k. -/
theorem fwdCount_run : ∀ (k : ℕ) (ls : List Bool),
    k ≤ ls.length →
    (∀ j, j < k → ls.getD j false = true) →
    ls.getD k false = false →
    fwdCount ls = k := by
  intro k
  induction k with
  | zero =>
      intro ls _ _ hk
      cases ls with
      | nil => rfl
      | cons b rest =>
          have hb : b = false := by simpa using hk
          simp [fwdCount, hb]
  | succ k ih =>
      intro ls hlen hall hk
      cases ls with
      | nil => simp at hlen
      | cons b rest =>
          have hb : b = true := by simpa using hall 0 (Nat.succ_pos k)
          subst hb
          have hrest : fwdCount rest = k := by
            refine ih rest (by simpa using hlen) ?_ (by simpa using hk)
            intro j hj
            simpa using hall (j + 1) (Nat.succ_lt_succ hj)
          simp [fwdCount, hrest]

/-- Claim C5: under the consistency burst detector, every maximal run of
consecutive cycles that individually pass all four per-cycle criteria but
whose length falls short of min_n_cycles is entirely marked non-burst
(in particular a signal whose only passing run has 2 cycles with
min_n_cycles 3 gets no burst flags). -/
theorem c5_short_runs_not_burst (t : BurstThresholds) (ms : List CycleMeasures)
    (a b : ℕ)
    (hble : b ≤ ms.length)
    (hall : ∀ j, a ≤ j → j < b → (ms.map (passesCriteria t)).getD j false = true)
    (hleft : a = 0 ∨ (ms.map (passesCriteria t)).getD (a - 1) false = false)
    (hright : b = ms.length ∨ (ms.map (passesCriteria t)).getD b false = false)
    (hshort : b - a < t.min_n_cycles) :
    ∀ i, a ≤ i → i < b → (detect_bursts_cycles t ms).getD i true = false := by
  intro i hai hib
  have hpslen : (ms.map (passesCriteria t)).length = ms.length := List.length_map _ _
  have hin : i < ms.length := Nat.lt_of_lt_of_le hib hble
  have hpi : (ms.map (passesCriteria t)).getD i false = true := hall i hai hib
  have hback : backCount (ms.map (passesCriteria t)) i = i + 1 - a :=
    backCount_run (ms.map (passesCriteria t)) a i hai
      (fun j h1 h2 => hall j h1 (Nat.lt_of_le_of_lt h2 hib)) hleft
  have hfwd : fwdCount ((ms.map (passesCriteria t)).drop (i + 1)) = b - (i + 1) := by
    apply fwdCount_run
    · rw [List.length_drop, hpslen]
      omega
    · intro j hj
      have hlt : i + 1 + j < b := by omega
      have hj2 := hall (i + 1 + j) (by omega) hlt
      rw [List.getD_eq_getElem?_getD, List.getElem?_drop]
      rw [List.getD_eq_getElem?_getD] at hj2
      exact hj2
    · rcases hright with hb | hb
      · have hlen2 : ((ms.map (passesCriteria t)).drop (i + 1)).length ≤ b - (i + 1) := by
          rw [List.length_drop, hpslen]
          omega
        rw [List.getD_eq_getElem?_getD, List.getElem?_eq_none hlen2]
        rfl
      · rw [List.getD_eq_getElem?_getD, List.getElem?_drop]
        have heq : i + 1 + (b - (i + 1)) = b := by omega
        rw [heq]
        rw [List.getD_eq_getElem?_getD] at hb
        exact hb
  have hrun : runLen (ms.map (passesCriteria t)) i = b - a := by
    simp only [runLen, hpi, if_true, hback, hfwd]
    omega
  have hdet : (detect_bursts_cycles t ms).getD i true
      = ((ms.map (passesCriteria t)).getD i false &&
         decide (t.min_n_cycles ≤ runLen (ms.map (passesCriteria t)) i)) := by
    simp only [detect_bursts_cycles, List.getD_eq_getElem?_getD, List.getElem?_map,
      List.getElem?_range hin]
    rfl
  rw [hdet, hrun, hpi, Bool.true_and]
  exact decide_eq_false (by omega)

/-- Criteria with min_n_cycles 3, used to instantiate claim C5. -/
def c5thr : BurstThresholds := ⟨0, 0, 0, 0, 3⟩

/-- Four cycles of which exactly the middle two pass all criteria. -/
def c5ms : List CycleMeasures :=
  [⟨-1, 1, 1, 1⟩, ⟨1, 1, 1, 1⟩, ⟨1, 1, 1, 1⟩, ⟨-1, 1, 1, 1⟩]

/-- A claim C5 instance: with exactly 2 consecutive passing cycles and
min_n_cycles 3, a cycle of the passing run is still non-burst. -/
theorem c5_short_runs_not_burst_witness :
    (detect_bursts_cycles c5thr c5ms).getD 1 true = false :=
  c5_short_runs_not_burst c5thr c5ms 1 3 (by decide)
    (fun j h1 h2 => by interval_cases j <;> decide)
    (Or.inr (by decide)) (Or.inr (by decide)) (by decide) 1 (by decide) (by decide)

/-- Membership of a per-unit Bycycle object in a group result container. -/
def unitMem (u : Bycycle) : GroupResults → Prop
  | .flat l => u ∈ l
  | .nested ll => ∃ r ∈ ll, u ∈ r

instance (u : Bycycle) : (r : GroupResults) → Decidable (unitMem u r)
  | .flat l => inferInstanceAs (Decidable (u ∈ l))
  | .nested ll => inferInstanceAs (Decidable (∃ r ∈ ll, u ∈ r))

/-- Claim C9: every per-unit Bycycle object stored by a successful
BycycleGroup.fit receives the group's return_samples value in its
consistency_mode attribute (the sixth positional argument of
Bycycle.__init__) while its own return_samples attribute is left at the
default True, whatever the group's consistency_mode is. -/
theorem c9_unit_consistency_mode_slip (g : BycycleGroup) (sigs : NDSig) (fs : ℚ)
    (fr : ℚ × ℚ) (axis : AxisSel) (nj : ℤ) (sched : List ℕ) (g2 : BycycleGroup)
    (h : BycycleGroup.fit g sigs fs fr axis nj sched = .ok g2) :
    ∀ u, unitMem u g2.dfs_features →
      u.consistency_mode = PyVal.bool g.return_samples ∧ u.return_samples = true := by
  intro u hu
  cases sigs with
  | d1 _ => cases h
  | d2 rows =>
      simp only [BycycleGroup.fit] at h
      split at h
      · cases h
      · split at h
        · cases h
        · split at h
          · injection h with h
            subst h
            simp only [unitMem] at hu
            rcases List.mem_map.mp hu with ⟨p, _, rfl⟩
            exact ⟨rfl, rfl⟩
          · cases h
  | d3 slices =>
      simp only [BycycleGroup.fit] at h
      split at h
      · cases h
      · split at h
        · cases h
        · cases h
        · split at h
          · injection h with h
            subst h
            simp only [unitMem] at hu
            rcases hu with ⟨r, hr, hur⟩
            rcases List.mem_map.mp hr with ⟨p, _, rfl⟩
            rcases List.mem_map.mp hur with ⟨q, _, rfl⟩
            exact ⟨rfl, rfl⟩
          · cases h

/-- A concrete group with string consistency_mode, used to instantiate
claim C9. -/
def c9g : BycycleGroup :=
  BycycleGroup.init "peak" "cycles" none none none (PyVal.str "min") true

/-- The group produced by a successful concrete 2d fit of one row. -/
def c9g2 : BycycleGroup :=
  ((BycycleGroup.fit c9g (NDSig.d2 [[0, 1, 0, -1, 0]]) 10 (6, 14) .a0 1 [0]).toOption).getD c9g

/-- The per-unit object stored by that fit. -/
def c9unit : Bycycle :=
  match c9g2.dfs_features with
  | .flat (u :: _) => u
  | _ => Bycycle.init "x" "x" none none none (PyVal.str "min") true

/-- A claim C9 instance: the stored unit of a concrete fit carries the
group's return_samples boolean as its consistency_mode and keeps
return_samples True. -/
theorem c9_unit_consistency_mode_slip_witness :
    c9unit.consistency_mode = PyVal.bool c9g.return_samples
      ∧ c9unit.return_samples = true :=
  c9_unit_consistency_mode_slip c9g (NDSig.d2 [[0, 1, 0, -1, 0]]) 10 (6, 14)
    .a0 1 [0] c9g2 rfl c9unit (List.Mem.head _)

/-- The number of top-level feature entries of an input array: rows for
2d, outer-dimension count for 3d. -/
def ndTopCount : NDSig → ℕ
  | .d1 _ => 0
  | .d2 rows => rows.length
  | .d3 slices => slices.length

/-- Claim C10: before any fit the group has length 0; after a successful
fit its length equals the number of computed top-level entries (rows for
2d, outer dimension for 3d), indexing at i returns the i-th element of
the iteration sequence, iteration yields exactly the elements of
dfs_features in input-index order, and index i holds the per-unit result
of input row i. -/
theorem c10_group_container_protocol :
    (∀ (ce bm : String) (bk th fek : Option PyDict) (cm : PyVal) (rs : Bool),
       (BycycleGroup.init ce bm bk th fek cm rs).lenG = 0)
    ∧ (∀ (g : BycycleGroup) (sigs : NDSig) (fs : ℚ) (fr : ℚ × ℚ) (axis : AxisSel)
       (nj : ℤ) (sched : List ℕ) (g2 : BycycleGroup),
       BycycleGroup.fit g sigs fs fr axis nj sched = .ok g2 →
       g2.lenG = ndTopCount sigs
       ∧ (∀ i : ℕ, g2.getItem i = (g2.items)[i]?)
       ∧ g2.items.length = g2.lenG
       ∧ (∀ rows, sigs = .d2 rows → ∀ i, i < rows.length →
           ∃ u, g2.getItem i = some (.single u) ∧ u.sig = rows[i]?)) := by
  constructor
  · intro ce bm bk th fek cm rs
    rfl
  · intro g sigs fs fr axis nj sched g2 h
    cases sigs with
    | d1 _ => cases h
    | d2 rows =>
        simp only [BycycleGroup.fit] at h
        split at h
        · cases h
        · rename_i ax2 hax
          split at h
          · cases h
          · rename_i features hcf
            split at h
            · rename_i hl
              injection h with h
              subst h
              refine ⟨?_, ?_, ?_, ?_⟩
              · simp [BycycleGroup.lenG, ndTopCount, hl]
              · intro i
                simp [BycycleGroup.getItem, BycycleGroup.items]
              · simp [BycycleGroup.items, BycycleGroup.lenG]
              · intro rows2 heq i hi
                injection heq with heq
                subst heq
                have hzl : i < (rows.zip features).length := by
                  simp [hl, hi]
                have h1 : ((rows.zip features).map
                    (fun p => (g.mkUnit).load p.2 p.1 fs fr))[i]?
                    = some ((g.mkUnit).load ((rows.zip features).get ⟨i, hzl⟩).2
                        ((rows.zip features).get ⟨i, hzl⟩).1 fs fr) := by
                  rw [List.getElem?_map, List.getElem?_eq_getElem hzl]
                  rfl
                refine ⟨(g.mkUnit).load ((rows.zip features).get ⟨i, hzl⟩).2
                    ((rows.zip features).get ⟨i, hzl⟩).1 fs fr, ?_, ?_⟩
                · simp only [BycycleGroup.getItem]
                  rw [h1]
                  rfl
                · show some ((rows.zip features).get ⟨i, hzl⟩).1 = rows[i]?
                  have hz := @List.getElem_zip Sig FeatureTable rows features i hzl
                  simp only [List.get_eq_getElem, hz]
                  rw [List.getElem?_eq_getElem hi]
            · cases h
    | d3 slices =>
        simp only [BycycleGroup.fit] at h
        split at h
        · cases h
        · rename_i ax3 hax
          split at h
          · cases h
          · cases h
          · rename_i tss hcf
            split at h
            · rename_i hcond
              injection h with h
              subst h
              have hts : tss.length = slices.length := by
                rcases Bool.and_eq_true_iff.mp hcond with ⟨h1, _⟩
                simpa using h1
              refine ⟨?_, ?_, ?_, ?_⟩
              · simp [BycycleGroup.lenG, ndTopCount, hts]
              · intro i
                simp [BycycleGroup.getItem, BycycleGroup.items]
              · simp [BycycleGroup.items, BycycleGroup.lenG]
              · intro rows2 heq
                cases heq
            · cases h

/-- A concrete group used to instantiate claim C10. -/
def c10g : BycycleGroup :=
  BycycleGroup.init "peak" "cycles" none none none (PyVal.str "min") false

/-- The group produced by a successful concrete two-row 2d fit. -/
def c10g2 : BycycleGroup :=
  ((BycycleGroup.fit c10g (NDSig.d2 [[0, 1, 0, -1, 0], [0, 2, 0, -2, 0]]) 10 (6, 14)
    .a0 2 [0, 1]).toOption).getD c10g

/-- A claim C10 instance: the unfitted group has length 0; the fitted
group has one entry per input row and indexing agrees with iteration. -/
theorem c10_group_container_protocol_witness :
    (BycycleGroup.init "peak" "cycles" none none none (PyVal.str "min") false).lenG = 0
    ∧ c10g2.lenG = ndTopCount (NDSig.d2 [[0, 1, 0, -1, 0], [0, 2, 0, -2, 0]])
    ∧ c10g2.getItem 0 = (c10g2.items)[0]? :=
  ⟨c10_group_container_protocol.1 "peak" "cycles" none none none (PyVal.str "min") false,
   (c10_group_container_protocol.2 c10g (NDSig.d2 [[0, 1, 0, -1, 0], [0, 2, 0, -2, 0]])
     10 (6, 14) .a0 2 [0, 1] c10g2 rfl).1,
   (c10_group_container_protocol.2 c10g (NDSig.d2 [[0, 1, 0, -1, 0], [0, 2, 0, -2, 0]])
     10 (6, 14) .a0 2 [0, 1] c10g2 rfl).2.1 0⟩
